import Mathlib

/-! Verification of the ssh-db-proxy interception proxy.

This file gives a shallow embedding, in Lean, of the decision-relevant parts
of the proxy: the ABAC rule engine (`internal/abac`), the per-query policy
decision of the PostgreSQL MITM (`internal/mitm/mitm.go`), the certificate
issuer cache (`internal/certissuer/certissuer.go`) and the event-delivery
HTTP handler (`Notifier.ServeHTTP`).  Go maps keyed by strings are modelled
as association lists, Go `int` bitsets as `Nat`, Go `time.Time` as seconds
since the Unix epoch, and fallible operations return `Option`/`Except`.
Theorems at the end of the file settle the specified properties against
these definitions. -/

/-- Association-list lookup, modelling the comma-ok form of Go map indexing
`v, ok := m[k]` (`none` when the key is absent). -/
def mapGet {α : Type} (l : List (String × α)) (k : String) : Option α :=
  match l with
  | [] => none
  | p :: rest => if p.1 = k then some p.2 else mapGet rest k

/-- Association-list update, modelling Go map assignment `m[k] = v`
(replace when present, insert otherwise). -/
def mapSet {α : Type} (l : List (String × α)) (k : String) (v : α) : List (String × α) :=
  match l with
  | [] => [(k, v)]
  | p :: rest => if p.1 = k then (k, v) :: rest else p :: mapSet rest k v

/-- Association-list removal, modelling Go `delete(m, k)`. -/
def mapDelete {α : Type} (l : List (String × α)) (k : String) : List (String × α) :=
  l.filter (fun p => p.1 != k)

/-- Statement kinds of the SQL extractor: Go `sql.StatementType`, an `iota`
enumeration `NoOp, Select, Join, Update, Insert, Delete`. -/
inductive StatementType
  | NoOp
  | Select
  | Join
  | Update
  | Insert
  | Delete
deriving DecidableEq

/-- One extracted SQL operation, Go `sql.QueryStatement` with fields
`Type`, `Table`, `Column`. -/
structure QueryStatement where
  type : StatementType
  table : String
  column : String
deriving DecidableEq

namespace abac

/-- Go `abac.NotPermit = 1 << 0`. -/
def NotPermit : Nat := 1

/-- Go `abac.Disconnect = 1 << 1`. -/
def Disconnect : Nat := 2

/-- Go `abac.Notify = 1 << 2`. -/
def Notify : Nat := 4

/-- Per-connection ABAC state, Go `abac.state` (internal/abac):
`optional[T]` fields become `Option`, `queryStatements` is the append-only
statement list.  The `onUpdate` rule-reload callback carried by the Go
struct plays no part in matching or observation results and is not
modelled. -/
structure State where
  databaseUsername : Option String := none
  ip : Option String := none
  databaseName : Option String := none
  time : Option Int := none
  queryStatements : List QueryStatement := []

/-- The Go `abac.Condition` interface seen through its `Matches(state) bool`
method: a compiled condition is its matching predicate. -/
def Condition : Type := State → Bool

/-- Go `abac.Rule`: a condition list (logical AND) and an action bitset. -/
structure Rule where
  Conditions : List Condition
  Actions : Nat

/-- Go `Rule.Matches` (internal/abac/rule.go): `matches` starts `true` and
is AND-ed with every condition; the rule yields its `Actions` when all
conditions match and `0` otherwise.  (The Go method always returns a `nil`
error.) -/
def Rule.Matches (c : Rule) (s : State) : Nat :=
  if c.Conditions.all (fun condition => condition s) then c.Actions else 0

/-- ABAC events, the closed set of state mutators from internal/abac
(`DatabaseNameEvent`, `DatabaseUsernameEvent`, `IPEvent`, `TimeEvent`,
`QueryStatementsEvent`), re-expressed as a tagged variant. -/
inductive Event
  | databaseName (name : String)
  | databaseUsername (username : String)
  | ip (ip : String)
  | time (t : Int)
  | queryStatements (statements : List QueryStatement)

/-- Application of one event to a state: the four scalar events overwrite
their field, `queryStatements` appends.  None of the Go closures ever
returns a non-nil error. -/
def applyEvent (e : Event) (s : State) : State :=
  match e with
  | .databaseName name => { s with databaseName := some name }
  | .databaseUsername username => { s with databaseUsername := some username }
  | .ip ip => { s with ip := some ip }
  | .time t => { s with time := some t }
  | .queryStatements statements =>
      { s with queryStatements := s.queryStatements ++ statements }

/-- Go `abac.ErrUnknownState`. -/
inductive AbacError
  | errUnknownState
deriving DecidableEq

/-- The engine, Go `abac.ABAC`: a named rule set and the per-connection
state map (both Go maps, modelled as association lists). -/
structure ABAC where
  Rules : List (String × Rule)
  states : List (String × State)

/-- Go `ABAC.NewState`: insert a fresh empty state.  The Go method draws a
random UUID; the identifier is a parameter here. -/
def ABAC.NewState (a : ABAC) (id : String) : ABAC :=
  { a with states := mapSet a.states id {} }

/-- Go `ABAC.NewStateFrom`: deep-copy an existing state under a new
identifier; a missing parent produces an empty state. -/
def ABAC.NewStateFrom (a : ABAC) (parentID id : String) : ABAC :=
  match mapGet a.states parentID with
  | some old => { a with states := mapSet a.states id old }
  | none => { a with states := mapSet a.states id {} }

/-- Go `ABAC.DeleteState`. -/
def ABAC.DeleteState (a : ABAC) (id : String) : ABAC :=
  { a with states := mapDelete a.states id }

/-- The loop body of Go `ABAC.matchState` with its two accumulators:
`res |= actions` and `matchedRules = append(matchedRules, name)` when
`actions > 0`. -/
def matchRulesAux (rules : List (String × Rule)) (s : State) (res : Nat)
    (matched : List String) : Nat × List String :=
  match rules with
  | [] => (res, matched)
  | (name, rule) :: rest =>
      let actions := rule.Matches s
      matchRulesAux rest s (res ||| actions)
        (if actions > 0 then matched ++ [name] else matched)

/-- Go `ABAC.matchState`: evaluate every rule against a state snapshot,
OR-ing action bitsets and collecting the names of rules that contributed a
nonzero bitset. -/
def matchRules (rules : List (String × Rule)) (s : State) : Nat × List String :=
  matchRulesAux rules s 0 []

/-- Result triple of Go `ABAC.Observe`: `(Action, []string, error)`. -/
structure ObserveResult where
  actions : Nat
  matchedRules : List String
  err : Option AbacError
deriving DecidableEq

/-- Go `ABAC.Observe`: fail with `ErrUnknownState` (and zero actions, no
matched rules, engine untouched) when the state is absent; otherwise apply
the events in order to the stored state, snapshot it, and evaluate the rule
set against the snapshot.  The engine component of the result carries the
updated state map. -/
def ABAC.Observe (a : ABAC) (stateID : String) (events : List Event) :
    ObserveResult × ABAC :=
  match mapGet a.states stateID with
  | none => (⟨0, [], some .errUnknownState⟩, a)
  | some st =>
      let st' := events.foldl (fun s e => applyEvent e s) st
      let a' : ABAC := { a with states := mapSet a.states stateID st' }
      let r := matchRules a.Rules st'
      (⟨r.1, r.2, none⟩, a')

/-- An inclusive integer interval, Go `abac.Interval` with `From`/`To`. -/
structure Interval where
  From : Int
  To : Int
deriving DecidableEq

/-- Go `Interval.Matches`: `c.From <= v && v <= c.To` (closed on both
ends). -/
def Interval.Matches (c : Interval) (v : Int) : Bool :=
  c.From ≤ v && v ≤ c.To

/-- Days-to-civil-date conversion (proleptic Gregorian calendar) used to
model Go `time.Time` component accessors: maps a day count relative to
1970-01-01 to `(year, month, day)`. -/
def civilFromDays (z0 : Int) : Int × Int × Int :=
  let z := z0 + 719468
  let era := Int.fdiv z 146097
  let doe := z - era * 146097
  let yoe := Int.ediv (doe - Int.ediv doe 1460 + Int.ediv doe 36524 - Int.ediv doe 146096) 365
  let y := yoe + era * 400
  let doy := doe - (365 * yoe + Int.ediv yoe 4 - Int.ediv yoe 100)
  let mp := Int.ediv (5 * doy + 2) 153
  let d := doy - Int.ediv (153 * mp + 2) 5 + 1
  let m := mp + (if mp < 10 then 3 else -9)
  (y + (if m ≤ 2 then 1 else 0), m, d)

/-- Civil-date-to-days conversion, the inverse of `civilFromDays`; used to
model Go `time.Date`. -/
def daysFromCivil (y0 m d : Int) : Int :=
  let y := y0 - (if m ≤ 2 then 1 else 0)
  let era := Int.fdiv y 400
  let yoe := y - era * 400
  let doy := Int.ediv (153 * (m + (if m > 2 then -3 else 9)) + 2) 5 + d - 1
  let doe := yoe * 365 + Int.ediv yoe 4 - Int.ediv yoe 100 + doy
  era * 146097 + doe - 719468

/-- The wall-clock components Go code reads off a `time.Time` after `In`:
`Year`, `Month` (1..12), `Day`, `Hour`, `Minute`, `Second` and `Weekday`
(0 = Sunday .. 6 = Saturday). -/
structure DateTime where
  year : Int
  month : Int
  day : Int
  hour : Int
  minute : Int
  second : Int
  weekday : Int
deriving DecidableEq

/-- A `time.Location` modelled by its fixed UTC offset in seconds.  The two
locations the claims involve are fixed-offset zones: `LoadLocation ""`
yields UTC (offset 0) and "Europe/Moscow" is UTC+03:00 (Russia observes no
daylight saving time). -/
def utcLocation : Int := 0

/-- UTC offset of "Europe/Moscow" in seconds (+03:00, fixed). -/
def moscowLocation : Int := 3 * 3600

/-- Model of Go `t.In(location)` followed by the component accessors, for
an absolute instant `t` in Unix-epoch seconds and a fixed-offset location:
shift into local time, split into days and seconds-of-day, and convert the
day count to a civil date.  1970-01-01 was a Thursday, hence the `+ 4` in
the weekday computation. -/
def timeIn (t location : Int) : DateTime :=
  let localSeconds := t + location
  let days := Int.ediv localSeconds 86400
  let secondsOfDay := Int.emod localSeconds 86400
  let ymd := civilFromDays days
  { year := ymd.1
    month := ymd.2.1
    day := ymd.2.2
    hour := Int.ediv secondsOfDay 3600
    minute := Int.ediv (Int.emod secondsOfDay 3600) 60
    second := Int.emod secondsOfDay 60
    weekday := Int.emod (days + 4) 7 }

/-- Model of Go `time.Date(y, m, d, h, min, sec, 0, location)` for a
fixed-offset location: the absolute instant, in Unix-epoch seconds, of the
given wall-clock time in that location. -/
def timeDate (y m d h min sec location : Int) : Int :=
  daysFromCivil y m d * 86400 + h * 3600 + min * 60 + sec - location

/-- Go `validMonths` map lookup: month name to `time.Month` value
(January = 1); an absent key yields the zero value `0`, exactly as Go map
indexing does. -/
def validMonths (s : String) : Int :=
  if s = "january" then 1
  else if s = "february" then 2
  else if s = "march" then 3
  else if s = "april" then 4
  else if s = "may" then 5
  else if s = "june" then 6
  else if s = "july" then 7
  else if s = "august" then 8
  else if s = "september" then 9
  else if s = "october" then 10
  else if s = "november" then 11
  else if s = "december" then 12
  else 0

/-- Go `validWeekdays` map lookup: weekday name to `time.Weekday` value
(Sunday = 0); an absent key yields the zero value `0`. -/
def validWeekdays (s : String) : Int :=
  if s = "sunday" then 0
  else if s = "monday" then 1
  else if s = "tuesday" then 2
  else if s = "wednesday" then 3
  else if s = "thursday" then 4
  else if s = "friday" then 5
  else if s = "saturday" then 6
  else 0

/-- Go `abac.TimeCondition` in its compiled form: the interval and name
lists, plus the `location` produced by `Init` from the `Location` string
via `time.LoadLocation` (here: the fixed UTC offset of that zone; the empty
string compiles to UTC). -/
structure TimeCondition where
  Year : List Interval := []
  Month : List String := []
  Day : List Interval := []
  Hour : List Interval := []
  Minute : List Interval := []
  Second : List Interval := []
  Weekday : List String := []
  location : Int := utcLocation

/-- Go `TimeCondition.Matches`: no match when `state.time` is unset;
otherwise convert the instant into the condition's location and require,
for each non-empty field list, that some listed name or interval matches
the corresponding component. -/
def TimeCondition.Matches (c : TimeCondition) (s : State) : Bool :=
  match s.time with
  | none => false
  | some instant =>
      let t := timeIn instant c.location
      (c.Weekday.isEmpty || c.Weekday.any (fun w => validWeekdays w == t.weekday)) &&
      (c.Month.isEmpty || c.Month.any (fun m => validMonths m == t.month)) &&
      (c.Year.isEmpty || c.Year.any (fun i => i.Matches t.year)) &&
      (c.Day.isEmpty || c.Day.any (fun i => i.Matches t.day)) &&
      (c.Hour.isEmpty || c.Hour.any (fun i => i.Matches t.hour)) &&
      (c.Minute.isEmpty || c.Minute.any (fun i => i.Matches t.minute)) &&
      (c.Second.isEmpty || c.Second.any (fun i => i.Matches t.second))

/-- The `Condition` interface instance of a compiled `TimeCondition`. -/
def TimeCondition.toCondition (c : TimeCondition) : Condition :=
  fun s => c.Matches s

/-- Go `abac.QueryCondition` in its compiled form: the optional statement
kind filter (`NoOp` when the `statement_type` field was empty) and the
table/column regexps compiled by `Init`, each modelled as its matching
predicate on strings. -/
structure QueryCondition where
  statementType : StatementType := .NoOp
  tableRegexps : List (String → Bool) := []
  columnRegexps : List (String → Bool) := []
  Strict : Bool := false

/-- Go `QueryCondition.Matches`: scan the state's query statements; skip a
statement whose kind fails the filter; the condition matches when some
table regexp matches the statement's table and some column regexp matches
its column, or - in strict mode - when the column is empty, the table is
non-empty and some table regexp matches it. -/
def QueryCondition.Matches (c : QueryCondition) (s : State) : Bool :=
  s.queryStatements.any (fun statement =>
    (c.statementType == .NoOp || statement.type == c.statementType) &&
    (let tableMatches := c.tableRegexps.any (fun re => re statement.table)
     let columnMatches := c.columnRegexps.any (fun re => re statement.column)
     (columnMatches && tableMatches) ||
     (statement.column == "" && statement.table != "" && tableMatches && c.Strict)))

/-- The `Condition` interface instance of a compiled `QueryCondition`. -/
def QueryCondition.toCondition (c : QueryCondition) : Condition :=
  fun s => c.Matches s

end abac

namespace mitm

/-- The sentinel errors of internal/mitm/mitm.go, plus `other` for the
remaining error values (for example the "unexpected Frontend message"
error), which `proxyClientToServer` treats like a nil error. -/
inductive MitmError
  | errUserPermissionDenied
  | errDisconnectUser
  | errCancelledRequest
  | errTerminateMessage
  | other
deriving DecidableEq

/-- Observable protocol actions of one client-to-server loop iteration:
forwarding the intercepted message to the upstream database, sending the
client an `ErrorResponse` or a `ReadyForQuery`, and sending the upstream a
`Terminate`. -/
inductive Effect
  | forwardToServer
  | sendErrorResponseToClient (code : String) (message : String)
  | sendReadyForQueryToClient (txStatus : Char)
  | sendTerminateToServer
deriving DecidableEq

/-- Whether one iteration of the `proxyClientToServer` loop falls through
to the next iteration or returns (with the loop's error value). -/
inductive LoopOutcome
  | continueLoop
  | exitLoop (err : Option MitmError)
deriving DecidableEq

/-- What `MITM.onQuery` produces: the protocol effects it performed, its
error result, and the ABAC engine as it left it. -/
structure OnQueryResult where
  effects : List Effect
  err : Option MitmError
  abac : abac.ABAC

/-- Go `MITM.onQuery` (internal/mitm/mitm.go).  `extract` stands for
`sql.ExtractQueryStatements`; `baseStateID` is `m.metadata.StateID` and
`freshStateID` the UUID drawn by `NewStateFrom`.  A parse failure is logged
and the function returns nil (fail-open).  Otherwise the query statements
are observed against a throwaway clone of the connection state (deleted
again afterwards): `Disconnect` sends the upstream a `Terminate` and
returns `ErrDisconnectUser`, `NotPermit` returns
`ErrUserPermissionDenied`, and otherwise the result is nil.  An `Observe`
error is only logged (its zero `actions` value is used).  The notifier
emissions are out-of-band events, not protocol messages, and are not
modelled. -/
def onQuery (extract : String → Except String (List QueryStatement))
    (a : abac.ABAC) (baseStateID freshStateID : String) (query : String) :
    OnQueryResult :=
  match extract query with
  | .error _ => ⟨[], none, a⟩
  | .ok queryStatements =>
      let a1 := a.NewStateFrom baseStateID freshStateID
      let p := a1.Observe freshStateID [abac.Event.queryStatements queryStatements]
      let a2 := p.2.DeleteState freshStateID
      let actions := p.1.actions
      if actions &&& abac.Disconnect > 0 then
        ⟨[.sendTerminateToServer], some .errDisconnectUser, a2⟩
      else if actions &&& abac.NotPermit > 0 then
        ⟨[], some .errUserPermissionDenied, a2⟩
      else
        ⟨[], none, a2⟩

/-- The dispatch on `handleMessage`'s error in the body of Go
`MITM.proxyClientToServer`: `ErrTerminateMessage` sends the upstream a
`Terminate` and returns nil; `ErrUserPermissionDenied` sends the client
`ErrorResponse{403}` then `ReadyForQuery{'I'}` and continues the loop
without forwarding; `ErrDisconnectUser` sets the half-close flag, sends the
upstream `Terminate`, sends the client `ErrorResponse{403}` and returns the
error; any other result (including nil) falls through to
`m.frontend.Send(msg)`, forwarding the message. -/
def proxyClientToServerStep (handleEffects : List Effect)
    (handleErr : Option MitmError) : List Effect × LoopOutcome :=
  match handleErr with
  | some .errTerminateMessage =>
      (handleEffects ++ [.sendTerminateToServer], .exitLoop none)
  | some .errUserPermissionDenied =>
      (handleEffects ++
        [.sendErrorResponseToClient "403" "Query is not permitted by administrator",
         .sendReadyForQueryToClient 'I'],
       .continueLoop)
  | some .errDisconnectUser =>
      (handleEffects ++
        [.sendTerminateToServer,
         .sendErrorResponseToClient "403" "Query is not permitted by administrator"],
       .exitLoop (some .errDisconnectUser))
  | _ => (handleEffects ++ [.forwardToServer], .continueLoop)

/-- One `proxyClientToServer` iteration on an intercepted `Query` or
`Parse` message carrying `query`: `handleMessage` runs `onQuery` on the
query text, and the loop dispatches on its result. -/
def handleQueryMessage (extract : String → Except String (List QueryStatement))
    (a : abac.ABAC) (baseStateID freshStateID : String) (query : String) :
    (List Effect × LoopOutcome) × abac.ABAC :=
  let r := onQuery extract a baseStateID freshStateID query
  (proxyClientToServerStep r.effects r.err, r.abac)

end mitm

namespace certissuer

/-- Go `certissuer.maxCacheSize`. -/
def maxCacheSize : Nat := 1000

/-- The validity window of an issued certificate: Go builds the leaf with
`NotBefore = now` and `NotAfter = now.Add(1 * time.Minute)`; times are
Unix-epoch seconds.  The key material plays no part in the cache logic and
is not modelled. -/
structure Certificate where
  notBefore : Int
  notAfter : Int
deriving DecidableEq

/-- Go `certissuer.CertIssuer`: the certificate cache keyed by common name
(the CA fields do not influence cache behaviour). -/
structure CertIssuer where
  cache : List (String × Certificate)
deriving DecidableEq

/-- Go `CertIssuer.addToCache`: when the common name is new and the cache
would reach `maxCacheSize`, first delete every entry whose `NotAfter` lies
strictly in the past; then store the certificate under the common name. -/
def addToCache (c : CertIssuer) (commonName : String) (cert : Certificate)
    (now : Int) : CertIssuer :=
  let cache :=
    if (mapGet c.cache commonName).isNone && c.cache.length + 1 ≥ maxCacheSize then
      c.cache.filter (fun p => !(now > p.2.notAfter))
    else c.cache
  ⟨mapSet cache commonName cert⟩

/-- Go `CertIssuer.Issue`: on a cache hit with `now < NotAfter` return the
cached certificate; otherwise build a fresh certificate valid from `now`
for one minute, insert it via `addToCache`, and return it.  (Key
generation, serial-number drawing and PEM encoding always succeed in this
model; their failure paths return no certificate at all in Go.) -/
def Issue (c : CertIssuer) (commonName : String) (now : Int) :
    Certificate × CertIssuer :=
  match mapGet c.cache commonName with
  | some cert =>
      if now < cert.notAfter then (cert, c)
      else
        let fresh : Certificate := ⟨now, now + 60⟩
        (fresh, addToCache c commonName fresh now)
  | none =>
      let fresh : Certificate := ⟨now, now + 60⟩
      (fresh, addToCache c commonName fresh now)

/-- Cache well-formedness at time `now`: every entry was issued no later
than `now` with the one-minute validity Go gives it.  `Issue` only ever
inserts such entries, so the invariant holds along any execution in which
`now` never decreases. -/
def CacheWF (c : CertIssuer) (now : Int) : Prop :=
  ∀ p ∈ c.cache, p.2.notAfter = p.2.notBefore + 60 ∧ p.2.notBefore ≤ now

end certissuer

namespace notifier

/-- Go `notifier.defaultCount`. -/
def defaultCount : Int := 100

/-- Helper for `atoi`: a non-empty all-digit character list read as a
decimal number. -/
def digitsToNat : List Char → Option Nat
  | [] => none
  | cs =>
      if cs.all Char.isDigit then
        some (cs.foldl (fun n ch => n * 10 + (ch.toNat - 48)) 0)
      else none

/-- Model of Go `strconv.Atoi`: an optional sign followed by at least one
ASCII digit; anything else (in particular the empty string) is an error.
Go additionally fails on values outside the `int` range; the claims under
verification involve no such values, so the model is unbounded. -/
def atoi (s : String) : Except Unit Int :=
  match s.data with
  | '+' :: rest =>
      match digitsToNat rest with
      | some n => .ok (n : Int)
      | none => .error ()
  | '-' :: rest =>
      match digitsToNat rest with
      | some n => .ok (-(n : Int))
      | none => .error ()
  | cs =>
      match digitsToNat cs with
      | some n => .ok (n : Int)
      | none => .error ()

/-- Outcome of one `Notifier.ServeHTTP` call: the HTTP status written, the
marshalled body when one was written, the events taken off the queue and
the events remaining on it. -/
structure ServeResult (ε : Type) where
  status : Nat
  body : Option String
  dequeued : List ε
  remaining : List ε

/-- Go `Notifier.ServeHTTP` over a queue holding `queue` events.
`countParam` is the raw `count` query parameter (`none` when absent;
`r.URL.Query().Get` then yields the empty string).  A failed `Atoi` writes
status 400.  A non-positive parsed count falls back to `defaultCount`.
The receive loop performs `count` non-blocking receives, which against this
queue takes `min count (queue.length)` events.  `marshal` stands for
`json.Marshal`; its failure writes status 500, success writes the JSON
body with status 200. -/
def serveHTTP {ε : Type} (countParam : Option String) (queue : List ε)
    (marshal : List ε → Option String) : ServeResult ε :=
  let countString := countParam.getD ""
  match atoi countString with
  | .error _ => ⟨400, none, [], queue⟩
  | .ok count0 =>
      let count := if count0 ≤ 0 then defaultCount else count0
      let res := queue.take count.toNat
      let remaining := queue.drop count.toNat
      match marshal res with
      | none => ⟨500, none, res, remaining⟩
      | some data => ⟨200, some data, res, remaining⟩

end notifier

namespace abac

/-- The OR over a rule list of the bitsets produced by `Rule.Matches`. -/
def orRules (rules : List (String × Rule)) (s : State) : Nat :=
  rules.foldr (fun nr acc => nr.2.Matches s ||| acc) 0

theorem matchRulesAux_fst (s : State) :
    ∀ (rules : List (String × Rule)) (res : Nat) (m : List String),
      (matchRulesAux rules s res m).1 = res ||| orRules rules s
  | [], res, m => by simp [matchRulesAux, orRules]
  | (name, rule) :: rest, res, m => by
      simp only [matchRulesAux, orRules, List.foldr_cons]
      rw [matchRulesAux_fst s rest]
      exact Nat.or_assoc res (rule.Matches s) (orRules rest s)

theorem matchRules_fst (rules : List (String × Rule)) (s : State) :
    (matchRules rules s).1 = orRules rules s := by
  rw [matchRules, matchRulesAux_fst]
  exact Nat.zero_or _

theorem matchRulesAux_snd (s : State) :
    ∀ (rules : List (String × Rule)) (res : Nat) (m : List String),
      (matchRulesAux rules s res m).2 =
        m ++ (rules.filter (fun nr => nr.2.Matches s > 0)).map Prod.fst
  | [], res, m => by simp [matchRulesAux]
  | (name, rule) :: rest, res, m => by
      simp only [matchRulesAux]
      rw [matchRulesAux_snd s rest]
      by_cases h : rule.Matches s > 0
      · simp [h, List.filter_cons]
      · simp [h, List.filter_cons]

theorem matchRules_snd (rules : List (String × Rule)) (s : State) :
    (matchRules rules s).2 =
      (rules.filter (fun nr => nr.2.Matches s > 0)).map Prod.fst := by
  rw [matchRules, matchRulesAux_snd]
  simp

theorem testBit_foldr_or (s : State) (i : Nat) :
    ∀ (l : List (String × Rule)) (b : Nat),
      (l.foldr (fun nr acc => nr.2.Matches s ||| acc) b).testBit i =
        (l.any (fun nr => (nr.2.Matches s).testBit i) || b.testBit i)
  | [], b => by simp
  | (name, rule) :: rest, b => by
      simp only [List.foldr_cons, List.any_cons, Nat.testBit_or]
      rw [testBit_foldr_or s i rest]
      exact (Bool.or_assoc _ _ _).symm

end abac

/-- C4.  `Observe` on a state identifier absent from the engine's state map
returns `ErrUnknownState` with a zero action bitset and an empty
matched-rule list, and leaves the engine (in particular every stored
state) unchanged. -/
theorem observe_unknown_state (a : abac.ABAC) (stateID : String)
    (events : List abac.Event) (h : mapGet a.states stateID = none) :
    a.Observe stateID events =
      (⟨0, [], some .errUnknownState⟩, a) := by
  unfold abac.ABAC.Observe
  rw [h]

/-- Witness for C4, mirroring the `no-state` subtest of `TestABAC`: an
engine with no states observed at identifier "unknown". -/
theorem observe_unknown_state_witness :
    abac.ABAC.Observe ⟨[], []⟩ "unknown" [abac.Event.databaseName "name"] =
      (⟨0, [], some .errUnknownState⟩, ⟨[], []⟩) :=
  observe_unknown_state ⟨[], []⟩ "unknown" [abac.Event.databaseName "name"] rfl

/-- A rule yields a nonzero bitset exactly when all its conditions match
and its configured `Actions` bitset is nonzero. -/
theorem rule_matches_pos_iff (r : abac.Rule) (s : abac.State) :
    abac.Rule.Matches r s > 0 ↔
      (∀ cond ∈ r.Conditions, cond s = true) ∧ r.Actions ≠ 0 := by
  unfold abac.Rule.Matches
  split
  next h =>
    rw [List.all_eq_true] at h
    simp only [Nat.pos_iff_ne_zero, ne_eq, iff_def]
    exact ⟨fun hne => ⟨h, hne⟩, fun hp => hp.2⟩
  next h =>
    simp only [gt_iff_lt, lt_self_iff_false, false_iff, not_and]
    intro hall
    exact absurd (List.all_eq_true.mpr hall) h

/-- C8.  The matched-rule-name list returned by rule evaluation contains a
name exactly when the rule set maps that name to a rule all of whose
conditions match the state and whose action bitset is nonzero; a matching
rule with a zero `Actions` bitset is omitted. -/
theorem matched_rules_iff (rules : List (String × abac.Rule))
    (s : abac.State) (name : String) :
    name ∈ (abac.matchRules rules s).2 ↔
      ∃ r : abac.Rule, (name, r) ∈ rules ∧
        (∀ cond ∈ r.Conditions, cond s = true) ∧ r.Actions ≠ 0 := by
  rw [abac.matchRules_snd]
  constructor
  · intro hmem
    obtain ⟨⟨n, r⟩, hmem2, rfl⟩ := List.mem_map.mp hmem
    obtain ⟨hin, hpos⟩ := List.mem_filter.mp hmem2
    exact ⟨r, hin, (rule_matches_pos_iff r s).mp (of_decide_eq_true hpos)⟩
  · rintro ⟨r, hmem, hall, hne⟩
    apply List.mem_map.mpr
    refine ⟨(name, r), List.mem_filter.mpr ⟨hmem, ?_⟩, rfl⟩
    exact decide_eq_true ((rule_matches_pos_iff r s).mpr ⟨hall, hne⟩)

/-- C10.  A rule with an empty condition list matches vacuously:
`Rule.Matches` returns its full `Actions` bitset on every state, and when
such a rule is present in the rule set its whole bitset is contained in
the result of every evaluation. -/
theorem empty_conditions_rule_matches_all (s : abac.State) (actions : Nat)
    (rules : List (String × abac.Rule)) (name : String)
    (hmem : (name, abac.Rule.mk [] actions) ∈ rules) :
    abac.Rule.Matches ⟨[], actions⟩ s = actions ∧
    actions ||| (abac.matchRules rules s).1 = (abac.matchRules rules s).1 := by
  constructor
  · rfl
  · rw [abac.matchRules_fst]
    apply Nat.eq_of_testBit_eq
    intro i
    rw [Nat.testBit_or]
    unfold abac.orRules
    rw [abac.testBit_foldr_or]
    by_cases hb : actions.testBit i
    · have hany : rules.any (fun nr => (nr.2.Matches s).testBit i) = true := by
        refine List.any_eq_true.mpr ⟨(name, ⟨[], actions⟩), hmem, ?_⟩
        simpa [abac.Rule.Matches] using hb
      simp [hb, hany]
    · simp [hb]

/-- Witness for C10: a one-rule set whose rule has no conditions and the
`Disconnect` bitset. -/
theorem empty_conditions_rule_matches_all_witness :
    abac.Rule.Matches ⟨[], 2⟩ {} = 2 ∧
    2 ||| (abac.matchRules [("always", abac.Rule.mk [] 2)] {}).1 =
      (abac.matchRules [("always", abac.Rule.mk [] 2)] {}).1 :=
  empty_conditions_rule_matches_all {} 2 [("always", abac.Rule.mk [] 2)]
    "always" (List.mem_singleton.mpr rfl)

/-- C5.  Rule evaluation is conjunctive within a rule (a rule contributes
its `Actions` bitset exactly when every condition matches, and `0`
otherwise) and disjunctive across rules (the engine's bitset is the OR of
the per-rule bitsets); consequently, appending a condition that matches no
state to one rule's condition list can never enlarge the evaluated action
bitset. -/
theorem rule_evaluation_and_or_monotone
    (pre post : List (String × abac.Rule)) (name : String) (r : abac.Rule)
    (c : abac.Condition) (s : abac.State)
    (hc : ∀ st, c st = false) :
    ((∀ cond ∈ r.Conditions, cond s = true) →
      abac.Rule.Matches r s = r.Actions) ∧
    ((¬ ∀ cond ∈ r.Conditions, cond s = true) →
      abac.Rule.Matches r s = 0) ∧
    ((abac.matchRules (pre ++ (name, r) :: post) s).1 =
      abac.orRules (pre ++ (name, r) :: post) s) ∧
    ((abac.matchRules
          (pre ++ (name, abac.Rule.mk (r.Conditions ++ [c]) r.Actions) :: post) s).1 |||
        (abac.matchRules (pre ++ (name, r) :: post) s).1 =
      (abac.matchRules (pre ++ (name, r) :: post) s).1) := by
  have hr0 : abac.Rule.Matches ⟨r.Conditions ++ [c], r.Actions⟩ s = 0 := by
    unfold abac.Rule.Matches
    rw [if_neg]
    intro hall
    rw [List.all_eq_true] at hall
    have hfc := hall c (List.mem_append.mpr (Or.inr (List.mem_singleton.mpr rfl)))
    rw [hc s] at hfc
    exact Bool.false_ne_true hfc
  refine ⟨?_, ?_, abac.matchRules_fst _ _, ?_⟩
  · intro hall
    unfold abac.Rule.Matches
    rw [if_pos (List.all_eq_true.mpr hall)]
  · intro hnall
    unfold abac.Rule.Matches
    rw [if_neg (fun h => hnall (List.all_eq_true.mp h))]
  · rw [abac.matchRules_fst, abac.matchRules_fst]
    apply Nat.eq_of_testBit_eq
    intro i
    rw [Nat.testBit_or]
    unfold abac.orRules
    rw [List.foldr_append, List.foldr_append]
    simp only [List.foldr_cons]
    rw [abac.testBit_foldr_or, abac.testBit_foldr_or, hr0, Nat.zero_or,
      Nat.testBit_or]
    cases hA : (pre.any fun nr => (nr.2.Matches s).testBit i) <;>
      cases hM : (abac.Rule.Matches r s).testBit i <;>
      cases hP :
        (List.foldr (fun nr acc => abac.Rule.Matches nr.2 s ||| acc) 0 post).testBit i <;>
      simp [hA, hM, hP]

/-- Witness for C5: one rule with no conditions and the `NotPermit` bit;
appending the never-matching condition turns its contribution off, and the
OR-subset equation holds. -/
theorem rule_evaluation_and_or_monotone_witness :
    (abac.matchRules [("r1", abac.Rule.mk [fun _ => false] 1)]
          ({} : abac.State)).1 |||
        (abac.matchRules [("r1", abac.Rule.mk [] 1)] {}).1 =
      (abac.matchRules [("r1", abac.Rule.mk [] 1)] {}).1 :=
  (rule_evaluation_and_or_monotone [] [] "r1" ⟨[], 1⟩ (fun _ => false) {}
    (fun _ => rfl)).2.2.2

/-- C9.  With `Strict = false` a `QueryCondition` matches exactly when some
query statement passes the optional kind filter, some table regexp matches
its table and some column regexp matches its column; hence an empty
`columnRegexps` list (with `Strict = false`) matches no state, and an
empty `tableRegexps` list matches no state regardless of `Strict`. -/
theorem query_condition_semantics (c : abac.QueryCondition) (s : abac.State) :
    (c.Strict = false →
      (c.Matches s = true ↔
        ∃ stmt ∈ s.queryStatements,
          (c.statementType = .NoOp ∨ stmt.type = c.statementType) ∧
          (∃ re ∈ c.tableRegexps, re stmt.table = true) ∧
          (∃ re ∈ c.columnRegexps, re stmt.column = true))) ∧
    (c.columnRegexps = [] → c.Strict = false → c.Matches s = false) ∧
    (c.tableRegexps = [] → c.Matches s = false) := by
  refine ⟨?_, ?_, ?_⟩
  · intro hstrict
    simp only [abac.QueryCondition.Matches, hstrict, Bool.and_false, Bool.or_false,
      List.any_eq_true, Bool.and_eq_true, Bool.or_eq_true, beq_iff_eq]
    constructor
    · rintro ⟨stmt, hmem, htype, hcm, htm⟩
      exact ⟨stmt, hmem, htype, htm, hcm⟩
    · rintro ⟨stmt, hmem, htype, htm, hcm⟩
      exact ⟨stmt, hmem, htype, hcm, htm⟩
  · intro hcol hstrict
    simp [abac.QueryCondition.Matches, hcol, hstrict]
  · intro htab
    simp [abac.QueryCondition.Matches, htab]

/-- Witness for C9: a compiled query condition with no table and no column
regexps matches no state. -/
theorem query_condition_semantics_witness :
    abac.QueryCondition.Matches ⟨.NoOp, [], [], false⟩ {} = false :=
  (query_condition_semantics ⟨.NoOp, [], [], false⟩ {}).2.2 rfl

/-- A successful association-list lookup exhibits a list member. -/
theorem mapGet_mem {α : Type} (k : String) (v : α) :
    ∀ l : List (String × α), mapGet l k = some v → (k, v) ∈ l
  | [], h => by simp [mapGet] at h
  | p :: rest, h => by
      unfold mapGet at h
      split at h
      next heq =>
        obtain rfl := Option.some.inj h
        subst heq
        exact List.mem_cons_self _ _
      next =>
        exact List.mem_cons_of_mem _ (mapGet_mem k v rest h)

/-- Every member of an updated association list is the written pair or a
member of the original list. -/
theorem mapSet_subset {α : Type} (k : String) (v : α) :
    ∀ (l : List (String × α)) (p : String × α),
      p ∈ mapSet l k v → p = (k, v) ∨ p ∈ l
  | [], p, h => by simpa [mapSet] using h
  | q :: rest, p, h => by
      unfold mapSet at h
      split at h
      next =>
        rcases List.mem_cons.mp h with h1 | h2
        · exact Or.inl h1
        · exact Or.inr (List.mem_cons_of_mem _ h2)
      next =>
        rcases List.mem_cons.mp h with h1 | h2
        · exact Or.inr (h1 ▸ List.mem_cons_self _ _)
        · rcases mapSet_subset k v rest p h2 with h3 | h4
          · exact Or.inl h3
          · exact Or.inr (List.mem_cons_of_mem _ h4)

/-- Inserting a certificate freshly issued at `now` preserves cache
well-formedness: eviction only removes entries and the new entry carries
the one-minute window starting at `now`. -/
theorem addToCache_wf (c : certissuer.CertIssuer) (name : String) (now : Int)
    (hwf : certissuer.CacheWF c now) :
    certissuer.CacheWF (certissuer.addToCache c name ⟨now, now + 60⟩ now) now := by
  intro p hp
  unfold certissuer.addToCache at hp
  rcases mapSet_subset name ⟨now, now + 60⟩ _ p hp with h1 | h2
  · subst h1
    exact ⟨rfl, le_refl now⟩
  · split at h2
    next => exact hwf p (List.mem_filter.mp h2).1
    next => exact hwf p h2

/-- C3.  `Issue` never returns an expired certificate: a cached pair is
returned only while `now < NotAfter`, otherwise a fresh certificate with
`NotBefore = now` and `NotAfter = now + 60s` is issued, so - on a
well-formed cache - the returned certificate always satisfies
`issued_at ≤ now < issued_at + 60s`; well-formedness is preserved. -/
theorem issue_returns_unexpired_certificate (c : certissuer.CertIssuer)
    (name : String) (now : Int) (hwf : certissuer.CacheWF c now) :
    ((certissuer.Issue c name now).1.notBefore ≤ now ∧
      now < (certissuer.Issue c name now).1.notBefore + 60) ∧
    ((certissuer.Issue c name now).1.notAfter =
      (certissuer.Issue c name now).1.notBefore + 60) ∧
    (now < (certissuer.Issue c name now).1.notAfter) ∧
    (∀ cert, mapGet c.cache name = some cert → now < cert.notAfter →
      (certissuer.Issue c name now).1 = cert) ∧
    (∀ cert, mapGet c.cache name = some cert → ¬ now < cert.notAfter →
      (certissuer.Issue c name now).1 = ⟨now, now + 60⟩) ∧
    (mapGet c.cache name = none →
      (certissuer.Issue c name now).1 = ⟨now, now + 60⟩) ∧
    certissuer.CacheWF (certissuer.Issue c name now).2 now := by
  rcases hget : mapGet c.cache name with _ | cert
  · have hIssue : certissuer.Issue c name now =
        (⟨now, now + 60⟩, certissuer.addToCache c name ⟨now, now + 60⟩ now) := by
      unfold certissuer.Issue
      rw [hget]
    rw [hIssue]
    refine ⟨⟨le_refl now, ?_⟩, rfl, ?_, ?_, ?_, fun _ => rfl,
      addToCache_wf c name now hwf⟩
    · show now < now + 60
      omega
    · show now < now + 60
      omega
    · intro cert2 h
      exact Option.noConfusion h
    · intro cert2 h
      exact Option.noConfusion h
  · have hmem := mapGet_mem name cert c.cache hget
    obtain ⟨h60, hle⟩ := hwf (name, cert) hmem
    have h60' : cert.notAfter = cert.notBefore + 60 := h60
    have hle' : cert.notBefore ≤ now := hle
    by_cases hlt : now < cert.notAfter
    · have hIssue : certissuer.Issue c name now = (cert, c) := by
        unfold certissuer.Issue
        rw [hget]
        exact if_pos hlt
      rw [hIssue]
      refine ⟨⟨hle', ?_⟩, h60', hlt, ?_, ?_, ?_, hwf⟩
      · show now < cert.notBefore + 60
        omega
      · intro cert2 h _
        exact Option.some.inj h
      · intro cert2 h hnlt
        obtain rfl := Option.some.inj h
        exact absurd hlt hnlt
      · intro h
        exact Option.noConfusion h
    · have hIssue : certissuer.Issue c name now =
          (⟨now, now + 60⟩, certissuer.addToCache c name ⟨now, now + 60⟩ now) := by
        unfold certissuer.Issue
        rw [hget]
        exact if_neg hlt
      rw [hIssue]
      refine ⟨⟨le_refl now, ?_⟩, rfl, ?_, ?_, fun _ _ _ => rfl, fun _ => rfl,
        addToCache_wf c name now hwf⟩
      · show now < now + 60
        omega
      · show now < now + 60
        omega
      · intro cert2 h h2
        obtain rfl := Option.some.inj h
        exact absurd h2 hlt

/-- Witness for C3: issuing on an empty (trivially well-formed) cache at
time 0 yields the fresh one-minute certificate. -/
theorem issue_returns_unexpired_certificate_witness :
    (certissuer.Issue ⟨[]⟩ "alice" 0).1 = ⟨0, 60⟩ ∧
    (certissuer.Issue ⟨[]⟩ "alice" 0).1.notBefore ≤ 0 ∧
    (0 : Int) < (certissuer.Issue ⟨[]⟩ "alice" 0).1.notBefore + 60 :=
  have h := issue_returns_unexpired_certificate ⟨[]⟩ "alice" 0
    (fun p hp => absurd hp (List.not_mem_nil p))
  ⟨h.2.2.2.2.2.1 rfl, h.1.1, h.1.2⟩

/-- Counterexample for C7: with the `count` query parameter missing,
`ServeHTTP` parses the empty string, `Atoi` fails, and the handler answers
400 without dequeuing anything - not 200 with the default of 100. -/
theorem serveHTTP_missing_count_counterexample :
    (notifier.serveHTTP (ε := Nat) none [7] (fun _ => some "[]")).status = 400 ∧
    (notifier.serveHTTP (ε := Nat) none [7] (fun _ => some "[]")).dequeued = [] ∧
    ¬ ((notifier.serveHTTP (ε := Nat) none [7] (fun _ => some "[]")).status = 200 ∧
       (notifier.serveHTTP (ε := Nat) none [7] (fun _ => some "[]")).dequeued = [7]) := by
  refine ⟨rfl, rfl, fun h => ?_⟩
  have h200 : (400 : Nat) = 200 := h.1
  exact absurd h200 (by decide)

/-- C7 (amended).  The event-delivery handler answers 400 whenever `Atoi`
fails on the raw `count` parameter - in particular whenever the parameter
is missing, since the raw value is then the empty string; a parsed count
that is non-positive falls back to the default of 100 dequeued events,
with status 200 and the marshalled array on success; a marshalling failure
yields status 500. -/
theorem serveHTTP_count_semantics {ε : Type} (countParam : Option String)
    (queue : List ε) (marshal : List ε → Option String) :
    (notifier.atoi (countParam.getD "") = .error () →
      notifier.serveHTTP countParam queue marshal = ⟨400, none, [], queue⟩) ∧
    (countParam = none →
      (notifier.serveHTTP countParam queue marshal).status = 400) ∧
    (∀ k : Int, notifier.atoi (countParam.getD "") = .ok k → k ≤ 0 →
      (notifier.serveHTTP countParam queue marshal).dequeued = queue.take 100 ∧
      (notifier.serveHTTP countParam queue marshal).remaining = queue.drop 100 ∧
      ∀ data, marshal (queue.take 100) = some data →
        notifier.serveHTTP countParam queue marshal =
          ⟨200, some data, queue.take 100, queue.drop 100⟩) ∧
    (∀ k : Int, notifier.atoi (countParam.getD "") = .ok k →
      marshal (queue.take (if k ≤ 0 then notifier.defaultCount else k).toNat) = none →
      (notifier.serveHTTP countParam queue marshal).status = 500) := by
  refine ⟨?_, ?_, ?_, ?_⟩
  · intro herr
    simp only [notifier.serveHTTP, herr]
  · intro hnone
    subst hnone
    unfold notifier.serveHTTP
    rfl
  · intro k hok hk
    have hcount : (if k ≤ 0 then notifier.defaultCount else k).toNat = 100 := by
      rw [if_pos hk]
      rfl
    simp only [notifier.serveHTTP, hok, hcount]
    cases hm : marshal (queue.take 100) with
    | none =>
        simp only [hm]
        refine ⟨trivial, trivial, ?_⟩
        intro data hdata
        exact Option.noConfusion hdata
    | some data0 =>
        simp only [hm]
        refine ⟨trivial, trivial, ?_⟩
        intro data hdata
        obtain rfl := Option.some.inj hdata
        rfl
  · intro k hok hmars
    simp only [notifier.serveHTTP, hok, hmars]

/-- Witness for C7: `count = "0"` (a non-positive integer) on a three-event
queue with successful marshalling dequeues everything (up to the default
100) and answers 200. -/
theorem serveHTTP_count_semantics_witness :
    (notifier.serveHTTP (some "0") [1, 2, 3] (fun _ => some "ok")).status = 200 ∧
    (notifier.serveHTTP (some "0") [1, 2, 3] (fun _ => some "ok")).dequeued = [1, 2, 3] := by
  have h := (serveHTTP_count_semantics (some "0") [1, 2, 3]
    (fun _ => some "ok")).2.2.1 0 rfl (by decide)
  have h2 := h.2.2 "ok" rfl
  rw [h2]
  exact ⟨rfl, rfl⟩

/-- Counterexample for C6: if the hour-window condition really carried
location "Europe/Moscow", then observing 2025-01-01 09:00 Moscow time
would MATCH (hour 9 lies inside the closed interval [7, 17]), not yield
empty actions as the claim states. -/
theorem time_condition_moscow_location_counterexample :
    (((abac.ABAC.mk
        [("rule1", ⟨[abac.TimeCondition.toCondition
            { Hour := [⟨7, 17⟩], location := abac.moscowLocation }], abac.Notify⟩)]
        []).NewState "s").Observe "s"
        [abac.Event.time (abac.timeDate 2025 1 1 9 0 0 abac.moscowLocation)]).1.actions =
      abac.Notify ∧
    abac.Notify ≠ 0 := by
  constructor
  · decide
  · decide

/-- C6 (amended).  In the repository's test the hour-window condition
carries no location string, which `time.LoadLocation` resolves to UTC: a
single rule with `Hour = [7..17]` and empty location does not match
2025-01-01 09:00 Moscow time (06:00 UTC) and does match 11:00 Moscow time
(08:00 UTC); hour intervals are closed on both ends. -/
theorem time_condition_utc_hour_window :
    (let engine := (abac.ABAC.mk
        [("rule1", ⟨[abac.TimeCondition.toCondition { Hour := [⟨7, 17⟩] }],
          abac.Notify⟩)] []).NewState "s"
     let r9 := engine.Observe "s"
        [abac.Event.time (abac.timeDate 2025 1 1 9 0 0 abac.moscowLocation)]
     let r11 := r9.2.Observe "s"
        [abac.Event.time (abac.timeDate 2025 1 1 11 0 0 abac.moscowLocation)]
     r9.1.actions = 0 ∧ r9.1.matchedRules = [] ∧
     r11.1.actions = abac.Notify ∧ r11.1.matchedRules = ["rule1"]) ∧
    (∀ (i : abac.Interval) (v : Int),
      i.Matches v = true ↔ i.From ≤ v ∧ v ≤ i.To) := by
  constructor
  · exact ⟨by decide, by decide, by decide, by decide⟩
  · intro i v
    simp [abac.Interval.Matches]

/-- C1.  When the extractor succeeds and the per-query observation yields
an action set with `NotPermit` but without `Disconnect`, `onQuery` returns
`ErrUserPermissionDenied` and the client-to-server loop sends the client
`ErrorResponse{403}` followed by `ReadyForQuery{'I'}` and continues - the
intercepted message is never forwarded to the upstream database. -/
theorem notPermit_query_blocked_session_continues
    (extract : String → Except String (List QueryStatement)) (a : abac.ABAC)
    (baseStateID freshStateID query : String) (stmts : List QueryStatement)
    (hparse : extract query = .ok stmts)
    (hnp : ((a.NewStateFrom baseStateID freshStateID).Observe freshStateID
        [abac.Event.queryStatements stmts]).1.actions &&& abac.NotPermit > 0)
    (hdc : ¬ ((a.NewStateFrom baseStateID freshStateID).Observe freshStateID
        [abac.Event.queryStatements stmts]).1.actions &&& abac.Disconnect > 0) :
    (mitm.onQuery extract a baseStateID freshStateID query).err =
      some .errUserPermissionDenied ∧
    (mitm.handleQueryMessage extract a baseStateID freshStateID query).1 =
      ([.sendErrorResponseToClient "403" "Query is not permitted by administrator",
        .sendReadyForQueryToClient 'I'], .continueLoop) ∧
    mitm.Effect.forwardToServer ∉
      (mitm.handleQueryMessage extract a baseStateID freshStateID query).1.1 := by
  have honq : mitm.onQuery extract a baseStateID freshStateID query =
      ⟨[], some .errUserPermissionDenied,
        (((a.NewStateFrom baseStateID freshStateID).Observe freshStateID
          [abac.Event.queryStatements stmts]).2).DeleteState freshStateID⟩ := by
    simp only [mitm.onQuery, hparse]
    rw [if_neg hdc, if_pos hnp]
  refine ⟨by rw [honq], ?_, ?_⟩
  · unfold mitm.handleQueryMessage
    rw [honq]
    rfl
  · unfold mitm.handleQueryMessage
    rw [honq]
    simp [mitm.proxyClientToServerStep]

/-- Witness for C1: a one-rule engine whose unconditional rule carries the
`NotPermit` bit, observed on a clone of the base connection state. -/
theorem notPermit_query_blocked_session_continues_witness :
    (mitm.handleQueryMessage (fun _ => Except.ok [])
        ⟨[("r", ⟨[], abac.NotPermit⟩)], [("base", {})]⟩ "base" "f" "q").1 =
      ([.sendErrorResponseToClient "403" "Query is not permitted by administrator",
        .sendReadyForQueryToClient 'I'], .continueLoop) :=
  (notPermit_query_blocked_session_continues (fun _ => Except.ok [])
    ⟨[("r", ⟨[], abac.NotPermit⟩)], [("base", {})]⟩ "base" "f" "q" []
    rfl (by decide) (by decide)).2.1

/-- C2.  When the SQL extractor fails on an intercepted query, `onQuery`
performs no protocol action, reports no policy violation (a nil error) and
leaves the ABAC engine untouched, and the loop iteration forwards the
message to the upstream unchanged and continues: parse failures never
cause denial or disconnection. -/
theorem parse_failure_fails_open
    (extract : String → Except String (List QueryStatement)) (a : abac.ABAC)
    (baseStateID freshStateID query : String) (e : String)
    (hparse : extract query = .error e) :
    mitm.onQuery extract a baseStateID freshStateID query = ⟨[], none, a⟩ ∧
    (mitm.handleQueryMessage extract a baseStateID freshStateID query).1 =
      ([.forwardToServer], .continueLoop) ∧
    (mitm.handleQueryMessage extract a baseStateID freshStateID query).2 = a := by
  have honq : mitm.onQuery extract a baseStateID freshStateID query =
      ⟨[], none, a⟩ := by
    simp only [mitm.onQuery, hparse]
  refine ⟨honq, ?_, ?_⟩
  · unfold mitm.handleQueryMessage
    rw [honq]
    rfl
  · unfold mitm.handleQueryMessage
    rw [honq]

/-- Witness for C2: an extractor that always fails to parse; the message
is forwarded and the loop continues with the engine unchanged. -/
theorem parse_failure_fails_open_witness :
    (mitm.handleQueryMessage (fun _ => Except.error "parse query")
        ⟨[], []⟩ "base" "f" "select 1").1 =
      ([.forwardToServer], .continueLoop) :=
  (parse_failure_fails_open (fun _ => Except.error "parse query")
    ⟨[], []⟩ "base" "f" "select 1" "parse query" rfl).2.1
